import Mathlib

/-!
Verification development for the TRexRewrite CEP engine (Rust).

Shallow embedding conventions:
* `i32`/`i64` payloads are modelled as `Int`; 32-bit wrap-around is applied
  through `wrap32` where the Rust arithmetic can wrap in release builds.
* `f32`/`f64` payloads are modelled as exact rationals extended with a NaN
  marker (`FloatVal`); rounding and infinities are not modelled (none of the
  verified properties depends on them).
* Rust panics (`unwrap`, out-of-bounds indexing, type-mismatch panics in the
  evaluator) are modelled by returning `none` in an `Option`.
* `Rc<Event>` pointer identity is modelled by a surrogate address field
  (`RcEvent.ptr`); `ptr_eq` compares those addresses.
* `HashMap`s keyed by `usize` are modelled as association lists with
  most-recent-first precedence (`alGet`); keys are inserted by consing.
* `chrono::DateTime<UTC>` and `chrono::Duration` are modelled as `Int`
  (a single linear time scale).
-/

namespace TRexSpec

/-- Model of an `f32`/`f64` payload: an exact rational or the NaN marker. -/
inductive FloatVal where
  | nan : FloatVal
  | num : ℚ → FloatVal
deriving DecidableEq

/-- True exactly on the NaN marker (Rust `is_nan`). -/
def FloatVal.isNan : FloatVal → Bool
  | .nan => true
  | .num _ => false

/-- NaN-propagating addition (`f32::add`). -/
def FloatVal.add : FloatVal → FloatVal → FloatVal
  | .num a, .num b => .num (a + b)
  | _, _ => .nan

/-- NaN-propagating subtraction. -/
def FloatVal.sub : FloatVal → FloatVal → FloatVal
  | .num a, .num b => .num (a - b)
  | _, _ => .nan

/-- NaN-propagating multiplication. -/
def FloatVal.mul : FloatVal → FloatVal → FloatVal
  | .num a, .num b => .num (a * b)
  | _, _ => .nan

/-- Division; division by zero is folded into NaN (infinities not modelled). -/
def FloatVal.div : FloatVal → FloatVal → FloatVal
  | .num a, .num b => if b = 0 then .nan else .num (a / b)
  | _, _ => .nan

/-- Rust `f32::min`: returns the other operand when one side is NaN. -/
def FloatVal.fmin : FloatVal → FloatVal → FloatVal
  | .nan, b => b
  | a, .nan => a
  | .num a, .num b => .num (min a b)

/-- Rust `f32::max`: returns the other operand when one side is NaN. -/
def FloatVal.fmax : FloatVal → FloatVal → FloatVal
  | .nan, b => b
  | a, .nan => a
  | .num a, .num b => .num (max a b)

/-- IEEE comparisons: any comparison with NaN is false. -/
def FloatVal.lt : FloatVal → FloatVal → Bool
  | .num a, .num b => a < b
  | _, _ => false

def FloatVal.le : FloatVal → FloatVal → Bool
  | .num a, .num b => a ≤ b
  | _, _ => false

/-- IEEE equality: NaN is not equal to anything, including itself. -/
def FloatVal.feq : FloatVal → FloatVal → Bool
  | .num a, .num b => a = b
  | _, _ => false

/-- Unary negation, NaN-propagating. -/
def FloatVal.neg : FloatVal → FloatVal
  | .num a => .num (-a)
  | .nan => .nan

/-- `tesla::expressions::BasicType`. -/
inductive BasicType where
  | int | float | bool | str
deriving DecidableEq

/-- `tesla::expressions::Value`: tagged union over Int/Float/Bool/Str. -/
inductive Value where
  | int : Int → Value
  | float : FloatVal → Value
  | bool : Bool → Value
  | str : String → Value
deriving DecidableEq

/-- `trex::expressions` `Value::as_bool`. -/
def Value.as_bool : Value → Option Bool
  | .bool b => some b
  | _ => none

/-- `Value::extract_int` (panics on other variants). -/
def Value.extract_int : Value → Option Int
  | .int v => some v
  | _ => none

/-- `Value::extract_float` (panics on other variants). -/
def Value.extract_float : Value → Option FloatVal
  | .float v => some v
  | _ => none

/-- 32-bit two's-complement wrap-around (Rust release-mode `i32` arithmetic). -/
def wrap32 (z : Int) : Int :=
  (z + 2 ^ 31) % 2 ^ 32 - 2 ^ 31

/-- `Value::cast` from `trex::expressions`: only Int → Float is permitted. -/
def Value.cast (ty : BasicType) : Value → Option Value
  | .int v =>
    match ty with
    | .float => some (.float (.num (v : ℚ)))
    | _ => none
  | _ => none

/-- `tesla::expressions::UnaryOperator`. -/
inductive UnaryOperator where
  | minus | not
deriving DecidableEq

/-- `tesla::expressions::BinaryOperator`. -/
inductive BinaryOperator where
  | plus | minus | times | division
  | equal | notEqual
  | greaterThan | greaterEqual | lowerThan | lowerEqual
deriving DecidableEq

/-- `trex::operations::unary::apply`; panics (type mismatch) become `none`. -/
def unaryApply : UnaryOperator → Value → Option Value
  | .minus, .int x => some (.int (wrap32 (-x)))
  | .minus, .float x => some (.float x.neg)
  | .minus, _ => none
  | .not, .bool x => some (.bool (!x))
  | .not, _ => none

/-- `trex::operations::binary::apply`; panics (type mismatch, division by
zero, `i32::MIN / -1`) become `none`. -/
def binaryApply : BinaryOperator → Value → Value → Option Value
  | .plus, .int a, .int b => some (.int (wrap32 (a + b)))
  | .plus, .float a, .float b => some (.float (a.add b))
  | .plus, .str a, .str b => some (.str (a ++ b))
  | .minus, .int a, .int b => some (.int (wrap32 (a - b)))
  | .minus, .float a, .float b => some (.float (a.sub b))
  | .times, .int a, .int b => some (.int (wrap32 (a * b)))
  | .times, .float a, .float b => some (.float (a.mul b))
  | .division, .int a, .int b =>
    if b = 0 ∨ (a = -(2 ^ 31) ∧ b = -1) then none else some (.int (Int.tdiv a b))
  | .division, .float a, .float b => some (.float (a.div b))
  | .equal, .int a, .int b => some (.bool (a = b))
  | .equal, .float a, .float b => some (.bool (a.feq b))
  | .equal, .bool a, .bool b => some (.bool (a = b))
  | .equal, .str a, .str b => some (.bool (a = b))
  | .notEqual, .int a, .int b => some (.bool (a ≠ b))
  | .notEqual, .float a, .float b => some (.bool (!a.feq b))
  | .notEqual, .bool a, .bool b => some (.bool (a ≠ b))
  | .notEqual, .str a, .str b => some (.bool (a ≠ b))
  | .greaterThan, .int a, .int b => some (.bool (b < a))
  | .greaterThan, .float a, .float b => some (.bool (b.lt a))
  | .greaterThan, .str a, .str b => some (.bool (b < a))
  | .greaterEqual, .int a, .int b => some (.bool (b ≤ a))
  | .greaterEqual, .float a, .float b => some (.bool (b.le a))
  | .greaterEqual, .str a, .str b => some (.bool (b ≤ a))
  | .lowerThan, .int a, .int b => some (.bool (a < b))
  | .lowerThan, .float a, .float b => some (.bool (a.lt b))
  | .lowerThan, .str a, .str b => some (.bool (a < b))
  | .lowerEqual, .int a, .int b => some (.bool (a ≤ b))
  | .lowerEqual, .float a, .float b => some (.bool (a.le b))
  | .lowerEqual, .str a, .str b => some (.bool (a ≤ b))
  | _, _, _ => none

/-- `tesla::expressions::Expression` (AST); `Rc` sharing is dropped. -/
inductive Expression where
  | immediate : Value → Expression
  | reference : Nat → Expression
  | aggregate : Expression
  | parameter : Nat → Nat → Expression
  | cast : BasicType → Expression → Expression
  | unaryOperation : UnaryOperator → Expression → Expression
  | binaryOperation : BinaryOperator → Expression → Expression → Expression
deriving DecidableEq

/-- `Expression::is_local`: true iff the tree has no `Parameter` leaf. -/
def Expression.is_local : Expression → Bool
  | .parameter _ _ => false
  | .cast _ e => e.is_local
  | .unaryOperation _ e => e.is_local
  | .binaryOperation _ l r => l.is_local && r.is_local
  | _ => true

/-- `tesla::predicates::EventSelection`. -/
inductive EventSelection where
  | each | first | last
deriving DecidableEq

/-- `tesla::predicates::Aggregator`. -/
inductive Aggregator where
  | avg : Nat → Aggregator
  | sum : Nat → Aggregator
  | max : Nat → Aggregator
  | min : Nat → Aggregator
  | count : Aggregator
deriving DecidableEq

/-- `tesla::predicates::ParameterDeclaration`. -/
structure ParameterDeclaration where
  name : String
  expression : Expression
deriving DecidableEq

/-- `tesla::predicates::TimingBound`; the `Within` duration is an `Int`. -/
inductive TimingBound where
  | within : Int → TimingBound
  | between : Nat → TimingBound
deriving DecidableEq

/-- `tesla::predicates::Timing`. -/
structure Timing where
  upper : Nat
  bound : TimingBound
deriving DecidableEq

/-- `tesla::predicates::Order` and `Ordering` (used by ordered static
predicates; carried for structural fidelity only). -/
inductive Order where
  | asc | desc
deriving DecidableEq

structure Ordering where
  attr : Nat
  direction : Order
deriving DecidableEq

/-- `tesla::predicates::PredicateType` (source spells it `OrderdStatic`). -/
inductive PredicateType where
  | trigger : List ParameterDeclaration → PredicateType
  | event : EventSelection → List ParameterDeclaration → Timing → PredicateType
  | orderedStatic : List ParameterDeclaration → List Ordering → PredicateType
  | unorderedStatic : List ParameterDeclaration → PredicateType
  | eventAggregate : Aggregator → ParameterDeclaration → Timing → PredicateType
  | staticAggregate : Aggregator → ParameterDeclaration → PredicateType
  | eventNegation : Timing → PredicateType
  | staticNegation : PredicateType
deriving DecidableEq

/-- `tesla::predicates::ConstrainedTuple`. -/
structure ConstrainedTuple where
  ty_id : Nat
  constraints : List Expression
  aliasName : String
deriving DecidableEq

/-- `tesla::predicates::Predicate`. -/
structure Predicate where
  ty : PredicateType
  tuple : ConstrainedTuple
deriving DecidableEq

/-- `tesla::TupleType`. -/
inductive TupleType where
  | static | event
deriving DecidableEq

/-- `tesla::AttributeDeclaration`. -/
structure AttributeDeclaration where
  name : String
  ty : BasicType
deriving DecidableEq

/-- `tesla::TupleDeclaration`. -/
structure TupleDeclaration where
  ty : TupleType
  id : Nat
  name : String
  attributes : List AttributeDeclaration
deriving DecidableEq

/-- `tesla::Tuple`: a type id plus attribute values. -/
structure Tuple where
  ty_id : Nat
  data : List Value
deriving DecidableEq

/-- `tesla::Event`: a tuple plus its wall-clock time (modelled as `Int`). -/
structure Event where
  tuple : Tuple
  time : Int
deriving DecidableEq

/-- An `Rc<Event>`: the event value together with a surrogate allocation
address used for `ptr_eq` identity. -/
structure RcEvent where
  ptr : Nat
  val : Event
deriving DecidableEq

/-- A borrowed `&Tuple` whose owner is an `Rc` allocation: the tuple value
plus the owner's surrogate address (`owning_ref::ErasedRcRef<Tuple>`). -/
structure TupleRef where
  ptr : Nat
  tuple : Tuple
deriving DecidableEq

/-- `tesla::EventTemplate`. -/
structure EventTemplate where
  ty_id : Nat
  attributes : List Expression
deriving DecidableEq

/-- `tesla::Rule`: predicates (head is the trigger), filters, template and
the consuming list. -/
structure Rule where
  predicates : List Predicate
  filters : List Expression
  event_template : EventTemplate
  consuming : List Nat
deriving DecidableEq

/-- Association-list lookup modelling `HashMap` indexing (`map[&k]`). -/
def alGet (k : Nat) : List (Nat × α) → Option α
  | [] => none
  | (k', v) :: rest => if k = k' then some v else alGet k rest

/-- `trex::expressions::PartialResult`: per-predicate-position tuples,
aggregate values and event times, plus the running length. -/
structure PartialResult where
  tuples : List (Nat × TupleRef)
  aggregates : List (Nat × Value)
  times : List (Nat × Int)
  len : Nat
deriving DecidableEq

/-- `PartialResult::new`. -/
def PartialResult.new : PartialResult :=
  { tuples := [], aggregates := [], times := [], len := 0 }

/-- `PartialResult::push_event`: bind the event's tuple and time at the
current length. -/
def PartialResult.push_event (r : PartialResult) (e : RcEvent) : PartialResult :=
  { r with
    tuples := (r.len, ⟨e.ptr, e.val.tuple⟩) :: r.tuples
    times := (r.len, e.val.time) :: r.times
    len := r.len + 1 }

/-- `PartialResult::with_trigger`. -/
def PartialResult.with_trigger (e : RcEvent) : PartialResult :=
  PartialResult.new.push_event e

/-- `PartialResult::push_tuple`. -/
def PartialResult.push_tuple (r : PartialResult) (t : TupleRef) : PartialResult :=
  { r with tuples := (r.len, t) :: r.tuples, len := r.len + 1 }

/-- `PartialResult::push_aggregate`. -/
def PartialResult.push_aggregate (r : PartialResult) (v : Value) : PartialResult :=
  { r with aggregates := (r.len, v) :: r.aggregates, len := r.len + 1 }

/-- `PartialResult::get_time` (`self.times[&index]`, panics when absent). -/
def PartialResult.get_time (r : PartialResult) (index : Nat) : Option Int :=
  alGet index r.times

/-- Short-circuiting `Iterator::all` over a panicking predicate: `none`
models a panic raised before the answer is determined. -/
def allOpt (f : α → Option Bool) : List α → Option Bool
  | [] => some true
  | x :: xs =>
    match f x with
    | some true => allOpt f xs
    | some false => some false
    | none => none

/-- Short-circuiting `Iterator::any` over a panicking predicate. -/
def anyOpt (f : α → Option Bool) : List α → Option Bool
  | [] => some false
  | x :: xs =>
    match f x with
    | some true => some true
    | some false => anyOpt f xs
    | none => none

/-- `Iterator::filter(...).collect()` over a panicking predicate. -/
def filterOpt (f : α → Option Bool) : List α → Option (List α)
  | [] => some []
  | x :: xs =>
    match f x with
    | some true => (filterOpt f xs).map (x :: ·)
    | some false => filterOpt f xs
    | none => none

/-- `Iterator::find` over a panicking predicate. -/
def findOpt (f : α → Option Bool) : List α → Option (Option α)
  | [] => some none
  | x :: xs =>
    match f x with
    | some true => some (some x)
    | some false => findOpt f xs
    | none => none

/-- A fallible `map`/`collect` over a list (monadic map in `Option`). -/
def mapOpt (f : α → Option β) : List α → Option (List β)
  | [] => some []
  | x :: xs => do
    let y ← f x
    let ys ← mapOpt f xs
    some (y :: ys)

/-- A fallible left fold over a list (monadic fold in `Option`). -/
def foldOpt (f : β → α → Option β) : β → List α → Option β
  | b, [] => some b
  | b, x :: xs => (f b x).bind (fun b2 => foldOpt f b2 xs)

/-- `SimpleContext::evaluate_expression` (tuple-only context): `Aggregate`
and `Parameter` leaves panic. -/
def simpleEval (t : Tuple) : Expression → Option Value
  | .immediate v => some v
  | .reference a => t.data[a]?
  | .aggregate => none
  | .parameter _ _ => none
  | .cast ty e => (simpleEval t e).bind (Value.cast ty)
  | .unaryOperation op e => (simpleEval t e).bind (unaryApply op)
  | .binaryOperation op l r => do
    let a ← simpleEval t l
    let b ← simpleEval t r
    binaryApply op a b

/-- `trex::expressions::CompleteContext`. -/
structure CompleteContext where
  predicates : List Predicate
  result : PartialResult
  current : Nat
  tuple : Option TupleRef
deriving DecidableEq

/-- `CompleteContext::new`. -/
def CompleteContext.new (preds : List Predicate) (r : PartialResult) : CompleteContext :=
  { predicates := preds, result := r, current := 0, tuple := none }

/-- `CompleteContext::set_current`. -/
def CompleteContext.set_current (ctx : CompleteContext) (c : Nat) : CompleteContext :=
  { ctx with current := c, tuple := alGet c ctx.result.tuples }

/-- `CompleteContext::set_tuple`. -/
def CompleteContext.set_tuple (ctx : CompleteContext) (t : TupleRef) : CompleteContext :=
  { ctx with tuple := some t, current := ctx.current + 1 }

/-- `CompleteContext::get_result`. -/
def CompleteContext.get_result (ctx : CompleteContext) : PartialResult :=
  ctx.result

/-- The parameter-defining expression selected by
`CompleteContext::evaluate_parameter` (panics on negation predicates). -/
def parameterExpression (p : Predicate) (parameter : Nat) : Option Expression :=
  match p.ty with
  | .trigger params => (params[parameter]?).map (·.expression)
  | .event _ params _ => (params[parameter]?).map (·.expression)
  | .orderedStatic params _ => (params[parameter]?).map (·.expression)
  | .unorderedStatic params => (params[parameter]?).map (·.expression)
  | .eventAggregate _ param _ => some param.expression
  | .staticAggregate _ param => some param.expression
  | _ => none

/-- `CompleteContext::evaluate_expression` with an explicit fuel bound: the
source recursion through `evaluate_parameter` re-enters the evaluator on the
referenced predicate's defining expression, so it is not structurally
decreasing; `none` at fuel 0 models a non-terminating (hence panicking or
divergent) evaluation. -/
def completeEval : Nat → CompleteContext → Expression → Option Value
  | 0, _, _ => none
  | _ + 1, _, .immediate v => some v
  | _ + 1, ctx, .reference a => ctx.tuple.bind (·.tuple.data[a]?)
  | _ + 1, ctx, .aggregate => alGet ctx.current ctx.result.aggregates
  | n + 1, ctx, .parameter predicate parameter => do
    let pred ← ctx.predicates[predicate]?
    let e ← parameterExpression pred parameter
    completeEval n (ctx.set_current predicate) e
  | n + 1, ctx, .cast ty e => (completeEval n ctx e).bind (Value.cast ty)
  | n + 1, ctx, .unaryOperation op e => (completeEval n ctx e).bind (unaryApply op)
  | n + 1, ctx, .binaryOperation op l r => do
    let a ← completeEval n ctx l
    let b ← completeEval n ctx r
    binaryApply op a b

/-- `trex::stacks::ptr_eq` on `Rc<Event>` allocations. -/
def ptrEq (a b : RcEvent) : Bool :=
  a.ptr = b.ptr

/-- `trex::stacks::Trigger`. -/
structure Trigger where
  predicate : Predicate
deriving DecidableEq

/-- `Trigger::is_satisfied`: tuple-id match, then all trigger constraints in
a tuple-only context (`as_bool().unwrap()` panics become `none`). -/
def Trigger.is_satisfied (t : Trigger) (e : RcEvent) : Option Bool :=
  if e.val.tuple.ty_id = t.predicate.tuple.ty_id then
    allOpt (fun ex => (simpleEval e.val.tuple ex).bind Value.as_bool)
      t.predicate.tuple.constraints
  else
    some false

/-- `trex::stacks::Stack`: one per event predicate. -/
structure Stack where
  tuple : TupleDeclaration
  predicate : Predicate
  local_exprs : List Expression
  global_exprs : List Expression
  timing : Timing
  max_window : Int
  events : List RcEvent
deriving DecidableEq

/-- `Stack::new`: only event-kind predicates produce a stack; constraints are
partitioned into local and global by `Expression::is_local`. -/
def Stack.new (tuple : TupleDeclaration) (predicate : Predicate) : Option Stack :=
  match predicate.ty with
  | .event _ _ timing | .eventAggregate _ _ timing | .eventNegation timing =>
    let parts := predicate.tuple.constraints.partition Expression.is_local
    some
      { tuple := tuple
        predicate := predicate
        local_exprs := parts.1
        global_exprs := parts.2
        timing := timing
        max_window := 0
        events := [] }
  | _ => none

/-- `Stack::is_locally_satisfied`. -/
def Stack.is_locally_satisfied (s : Stack) (e : RcEvent) : Option Bool :=
  if e.val.tuple.ty_id = s.predicate.tuple.ty_id then
    allOpt (fun ex => (simpleEval e.val.tuple ex).bind Value.as_bool) s.local_exprs
  else
    some false

/-- `Stack::is_globally_satisfied`. -/
def Stack.is_globally_satisfied (fuel : Nat) (s : Stack) (ctx : CompleteContext) :
    Option Bool :=
  allOpt (fun ex => (completeEval fuel ctx ex).bind Value.as_bool) s.global_exprs

/-- `Stack::process` (`EventProcessor` impl): append when locally satisfied. -/
def Stack.process (s : Stack) (e : RcEvent) : Option Stack :=
  (s.is_locally_satisfied e).map fun b =>
    if b then { s with events := s.events ++ [e] } else s

/-- `Stack::consume` (`EventProcessor` impl): retain events not `ptr_eq` to
the consumed one. -/
def Stack.consume (s : Stack) (e : RcEvent) : Stack :=
  { s with events := s.events.filter (fun evt => !ptrEq evt e) }

/-- `Stack::remove_old_events`: retain events with `time >= bound`, return
the oldest remaining event time. -/
def Stack.remove_old_events (s : Stack) (time : Int) : Stack × Option Int :=
  let kept := s.events.filter (fun evt => time ≤ evt.val.time)
  ({ s with events := kept }, kept.head?.map (·.val.time))

/-- `evt.tuple.data[attr].extract_int()` mapped over a sequence of events
(panics on a missing attribute or a non-Int value). -/
def mapExtractInt (attr : Nat) (events : List RcEvent) : Option (List Int) :=
  mapOpt (fun e => (e.val.tuple.data[attr]?).bind Value.extract_int) events

/-- `evt.tuple.data[attr].extract_float()` mapped over a sequence of events. -/
def mapExtractFloat (attr : Nat) (events : List RcEvent) : Option (List FloatVal) :=
  mapOpt (fun e => (e.val.tuple.data[attr]?).bind Value.extract_float) events

/-- `trex::aggregators::compute_aggregate` (also `Stack::compute_aggregate`
in `trex::stacks`, which is the same dispatch with
`attributes = self.tuple.attributes`). The outer `Option` models panics
(missing attribute, wrong basic type, extraction failures); the inner
`Option` is the source's `Option<Value>` return. -/
def compute_aggregate (aggregator : Aggregator) (events : List RcEvent)
    (attributes : List AttributeDeclaration) : Option (Option Value) :=
  match aggregator with
  | .avg attr =>
    match attributes[attr]? with
    | none => none
    | some decl =>
      match decl.ty with
      | .int => do
        let xs ← mapExtractInt attr events
        let acc := xs.foldl (fun acc x => (acc.1 + 1, wrap32 (acc.2 + x))) ((0 : Int), (0 : Int))
        some (if 0 < acc.1 then some (.float (.num ((acc.2 : ℚ) / (acc.1 : ℚ)))) else none)
      | .float => do
        let xs ← mapExtractFloat attr events
        let acc := xs.foldl (fun acc x => (acc.1 + 1, acc.2.add x)) ((0 : Int), FloatVal.num 0)
        some (if 0 < acc.1 then some (.float (acc.2.div (.num (acc.1 : ℚ)))) else none)
      | _ => none
  | .sum attr =>
    match attributes[attr]? with
    | none => none
    | some decl =>
      match decl.ty with
      | .int => do
        let xs ← mapExtractInt attr events
        some (some (.int (xs.foldl (fun acc x => wrap32 (acc + x)) 0)))
      | .float => do
        let xs ← mapExtractFloat attr events
        some (some (.float (xs.foldl FloatVal.add (.num 0))))
      | _ => none
  | .min attr =>
    match attributes[attr]? with
    | none => none
    | some decl =>
      match decl.ty with
      | .int => do
        let xs ← mapExtractInt attr events
        some ((xs.foldl (fun acc x => some ((acc.map (Min.min x)).getD x)) none).map Value.int)
      | .float => do
        let xs ← mapExtractFloat attr events
        let m := xs.foldl FloatVal.fmin .nan
        some (if !m.isNan then some (.float m) else none)
      | _ => none
  | .max attr =>
    match attributes[attr]? with
    | none => none
    | some decl =>
      match decl.ty with
      | .int => do
        let xs ← mapExtractInt attr events
        some ((xs.foldl (fun acc x => some ((acc.map (Max.max x)).getD x)) none).map Value.int)
      | .float => do
        let xs ← mapExtractFloat attr events
        let m := xs.foldl FloatVal.fmax .nan
        some (if !m.isNan then some (.float m) else none)
      | _ => none
  | .count => some (some (.int (events.length : Int)))

/-- The window bounds computed at the top of `Stack::evaluate`: `upper` is
the bound time at `timing.upper`; `lower` is `upper - window` (`Within`) or
the bound time at the lower predicate (`Between`). `none` models the
`times[&index]` panic. -/
def resolveBounds (s : Stack) (r : PartialResult) : Option (Int × Int) := do
  let upper ← r.get_time s.timing.upper
  match s.timing.bound with
  | .within window => some (upper, upper - window)
  | .between lower => (r.get_time lower).map (upper, ·)

/-- `check_evt` inside `Stack::evaluate`: half-open time test then the
global-constraint check in the event's derived context. -/
def checkEvt (fuel : Nat) (s : Stack) (ctx : CompleteContext) (upper lower : Int)
    (e : RcEvent) : Option Bool :=
  if e.val.time < upper ∧ lower ≤ e.val.time then
    s.is_globally_satisfied fuel (ctx.set_tuple ⟨e.ptr, e.val.tuple⟩)
  else
    some false

/-- `Stack::evaluate` (`Evaluator` impl): window scan plus selection mode,
aggregate or negation dispatch; panics become `none`. -/
def Stack.evaluate (fuel : Nat) (s : Stack) (ctx : CompleteContext) :
    Option (List PartialResult) := do
  let bounds ← resolveBounds s ctx.get_result
  let check := checkEvt fuel s ctx bounds.1 bounds.2
  match s.predicate.ty with
  | .event selection _ _ =>
    match selection with
    | .each => (filterOpt check s.events).map (·.map ctx.get_result.push_event)
    | .first => (findOpt check s.events).map fun found =>
        (found.map ctx.get_result.push_event).toList
    | .last => (findOpt check s.events.reverse).map fun found =>
        (found.map ctx.get_result.push_event).toList
  | .eventAggregate aggregator _ _ => do
    let survivors ← filterOpt check s.events
    let res ← compute_aggregate aggregator survivors s.tuple.attributes
    some ((res.map ctx.get_result.push_aggregate).toList)
  | .eventNegation _ => do
    let found ← anyOpt check s.events
    some (if !found then [ctx.get_result] else [])
  | _ => none

/-- `trex::stacks::RuleStacks`: the `BTreeMap<usize, Stack>` is modelled as
an association list kept in ascending key order. -/
structure RuleStacks where
  rule : Rule
  trigger : Trigger
  stks : List (Nat × Stack)
deriving DecidableEq

/-- The `filter_map` in `RuleStacks::new` building the per-predicate stacks:
`declarations[&pred.tuple.ty_id]` panics when the declaration is missing;
predicates for which `Stack::new` returns `None` are skipped. -/
def buildStacks (declarations : List (Nat × TupleDeclaration)) :
    Nat → List Predicate → Option (List (Nat × Stack))
  | _, [] => some []
  | i, p :: ps => do
    let decl ← alGet p.tuple.ty_id declarations
    let rest ← buildStacks declarations (i + 1) ps
    match Stack.new decl p with
    | some st => some ((i, st) :: rest)
    | none => some rest

/-- `RuleStacks::new`: build the trigger and the stacks, then compute the
`windows` vector — note that the `Between` arm reads `stacks[&lower].max_window`
from the *pre-sweep* stacks, whose `max_window` fields are all still the
initial zero — and assign it positionally. -/
def RuleStacks.new (rule : Rule) (declarations : List (Nat × TupleDeclaration)) :
    Option RuleStacks := do
  let trigPred ← rule.predicates[0]?
  let stks ← buildStacks declarations 0 rule.predicates
  let windows ← mapOpt
    (fun p =>
      match p.2.timing.bound with
      | .within window => some window
      | .between lower => (alGet lower stks).map (·.max_window))
    stks
  let stks := List.zipWith (fun p w => (p.1, { p.2 with max_window := w })) stks windows
  some { rule := rule, trigger := ⟨trigPred⟩, stks := stks }

/-- The loop body of `RuleStacks::remove_old_events`: walk the stks in
ascending key order; each stack drops events older than the oldest remaining
time recorded for its `timing.upper` predicate (`oldest_times[&upper]`,
panicking when absent), then records its own oldest remaining time
(defaulting to the trigger time when the buffer became empty). -/
def removeOldEventsGo (trigger_time : Int) :
    List (Nat × Stack) → List (Nat × Int) → Option (List (Nat × Stack))
  | [], _ => some []
  | (i, st) :: rest, oldest => do
    let prev ← alGet st.timing.upper oldest
    let pr := st.remove_old_events prev
    let time := pr.2.getD trigger_time
    let rest' ← removeOldEventsGo trigger_time rest ((i, time) :: oldest)
    some ((i, pr.1) :: rest')

/-- `RuleStacks::remove_old_events`: the map of oldest admissible times is
seeded with `(0, trigger_time)`. -/
def RuleStacks.remove_old_events (rs : RuleStacks) (trigger_time : Int) :
    Option (List (Nat × Stack)) :=
  removeOldEventsGo trigger_time rs.stks [(0, trigger_time)]

/-- `Vec::append` of the per-result `stack.evaluate` batches inside the
pipeline fold. -/
def listBindOpt (f : α → Option (List β)) : List α → Option (List β)
  | [] => some []
  | x :: xs => do
    let ys ← f x
    let rest ← listBindOpt f xs
    some (ys ++ rest)

/-- The fold in `RuleStacks::process`: walk the stacks in order; each stack
maps the running list of partial results to the concatenation of its
`evaluate` outputs; stop early (returning the empty list) once it is empty. -/
def pipelineFold (fuel : Nat) (preds : List Predicate) :
    List (Nat × Stack) → List PartialResult → Option (List PartialResult)
  | [], prev => some prev
  | (_, st) :: rest, prev => do
    let cur ← listBindOpt (fun r => st.evaluate fuel (CompleteContext.new preds r)) prev
    if cur.isEmpty then some [] else pipelineFold fuel preds rest cur

/-- `RuleStacks::process` as written in `trex::stacks`: offer the event to
every stack, test the trigger, evict, run the pipeline fold — and then,
where the source has `// TODO generate events from rule template`, return
the empty batch. -/
def RuleStacks.process (fuel : Nat) (rs : RuleStacks) (event : RcEvent) :
    Option (RuleStacks × List Event) := do
  let stacks1 ← mapOpt (fun p => (p.2.process event).map (p.1, ·)) rs.stks
  let sat ← rs.trigger.is_satisfied event
  if sat then do
    let stacks2 ← removeOldEventsGo event.val.time stacks1 [(0, event.val.time)]
    let initial := PartialResult.with_trigger event
    let _folded ← pipelineFold fuel rs.rule.predicates stacks2 [initial]
    some ({ rs with stks := stacks2 }, [])
  else
    some ({ rs with stks := stacks1 }, [])

/-- `Stack::consume` expressed on the surrogate pointer only; agrees with
`Stack.consume` on any `RcEvent` carrying that pointer. -/
def Stack.consumePtr (s : Stack) (p : Nat) : Stack :=
  { s with events := s.events.filter (fun evt => !(evt.ptr = p)) }

/-- Replace the entry at a key in an association list (in place). -/
def alSet (k : Nat) (v : α) : List (Nat × α) → List (Nat × α)
  | [] => []
  | (k2, w) :: rest => (if k2 = k then (k, v) else (k2, w)) :: alSet k v rest

/-- Modelled from the spec: the filter step of the pipeline tail that is
implemented in the missing `trex/src/rule_processor.rs` (declared in
`src/trex/mod.rs` but absent from the sources): a surviving partial result
is kept iff every rule filter expression evaluates to boolean true. -/
def applyFilters (fuel : Nat) (preds : List Predicate) (filters : List Expression)
    (results : List PartialResult) : Option (List PartialResult) :=
  filterOpt
    (fun r => allOpt
      (fun f => (completeEval fuel (CompleteContext.new preds r) f).bind Value.as_bool)
      filters)
    results

/-- Modelled from the spec: the `consuming` step of the missing
`rule_processor.rs` pipeline tail — for each listed predicate index, the
event bound at that index in each surviving partial result is removed from
that predicate's stack by `Rc` pointer identity (the source `Stack::consume`). -/
def consumeAll (consuming : List Nat) (survivors : List PartialResult)
    (stks : List (Nat × Stack)) : Option (List (Nat × Stack)) :=
  foldOpt
    (fun stks idx => do
      let st ← alGet idx stks
      let st2 ← foldOpt
        (fun st r => (alGet idx r.tuples).map (fun tref => st.consumePtr tref.ptr))
        st survivors
      some (alSet idx st2 stks))
    stks consuming

/-- Modelled from the spec: template rendering of the missing
`rule_processor.rs` — each surviving partial result is rendered through the
rule's event template into a new `Event` stamped with the trigger event's
time. -/
def renderTemplate (fuel : Nat) (preds : List Predicate) (template : EventTemplate)
    (trigger_time : Int) (r : PartialResult) : Option Event := do
  let data ← mapOpt (fun a => completeEval fuel (CompleteContext.new preds r) a)
    template.attributes
  some { tuple := { ty_id := template.ty_id, data := data }, time := trigger_time }

/-- Modelled from the spec: `RuleStacks::process` including the pipeline
tail (filters, `consuming`, template emission) of the missing
`rule_processor.rs`; the prefix (offer, trigger test, eviction, fold) is the
source `trex::stacks` code. -/
def RuleStacks.processFull (fuel : Nat) (rs : RuleStacks) (event : RcEvent) :
    Option (RuleStacks × List Event) := do
  let stacks1 ← mapOpt (fun p => (p.2.process event).map (p.1, ·)) rs.stks
  let sat ← rs.trigger.is_satisfied event
  if sat then do
    let stacks2 ← removeOldEventsGo event.val.time stacks1 [(0, event.val.time)]
    let initial := PartialResult.with_trigger event
    let results ← pipelineFold fuel rs.rule.predicates stacks2 [initial]
    let filtered ← applyFilters fuel rs.rule.predicates rs.rule.filters results
    let stacks3 ← consumeAll rs.rule.consuming filtered stacks2
    let batch ← mapOpt
      (renderTemplate fuel rs.rule.predicates rs.rule.event_template event.val.time) filtered
    some ({ rs with stks := stacks3 }, batch)
  else
    some ({ rs with stks := stacks1 }, [])

/-- Modelled from the spec: the `PartialResult` of the missing
`rule_processor.rs` as used by `trex::sqlite` — the row of bound parameter
values `(pred-idx, param-idx) → Value` extended by `insert_parameter`. -/
structure ParamsResult where
  params : List ((Nat × Nat) × Value)
deriving DecidableEq

/-- Modelled from the spec: `PartialResult::insert_parameter`. -/
def ParamsResult.insert_parameter (r : ParamsResult) (k : Nat × Nat) (v : Value) :
    ParamsResult :=
  { params := (k, v) :: r.params }

/-- `trex::sqlite::CacheEntryValue` (the `Exists` constructor is spelled
`exs` because `exists` is a Lean keyword). -/
inductive CacheEntryValue where
  | values : Nat → List Value → CacheEntryValue
  | aggr : Value → CacheEntryValue
  | cnt : Nat → CacheEntryValue
  | exs : Bool → CacheEntryValue
deriving DecidableEq

/-- Rust slice `chunks(n)`: consecutive chunks of size `n`, the last one
possibly shorter (`n = 0` is rejected by the caller). -/
def listChunks : Nat → List α → List (List α)
  | _, [] => []
  | 0, _ :: _ => []
  | n + 1, x :: xs => (x :: xs).take (n + 1) :: listChunks (n + 1) ((x :: xs).drop (n + 1))
termination_by _ l => l.length
decreasing_by simp [List.length_drop]; omega

/-- The enumerate-and-fold over one row's output values in the `Values`
branch of `SQLiteDriver::evaluate`. -/
def insertOutputs (idx : Nat) : ParamsResult → Nat → List Value → ParamsResult
  | r, _, [] => r
  | r, i, v :: vs => insertOutputs idx (r.insert_parameter (idx, i) v) (i + 1) vs

/-- `SQLiteDriver::evaluate` after the cache fetch: dispatch on the fetched
`CacheEntryValue` (`slice::chunks` panics on a zero chunk size). -/
def SQLiteDriver.evaluateEntry (idx : Nat) (entry : CacheEntryValue)
    (result : ParamsResult) : Option (List ParamsResult) :=
  match entry with
  | .values chunk_size cached =>
    if chunk_size = 0 then none
    else some ((listChunks chunk_size cached).map (insertOutputs idx result 0))
  | .cnt count => some (List.replicate count result)
  | .aggr v => some [result.insert_parameter (idx, 0) v]
  | .exs b => some (if !b then [result] else [])

/-- Abstract interface of the `trex::cache::Cache` trait: a state type with
`contains`, `fetch` (which may mutate, e.g. LRU recency updates) and `store`
(returning `inl` for `Ok(cached-ref)` — carrying the value the reference
points at — or `inr` for `Err(rejected-value)`). -/
structure CacheModel (K V : Type) where
  State : Type
  contains : State → K → Bool
  fetch : State → K → State × Option V
  store : State → K → V → State × (V ⊕ V)

/-- `CachedFetcher::fetch`: on a hit return the cached reference
(`fetch(key).unwrap()` — the unwrap panic is `none`); on a miss call the
underlying fetcher, attempt `store`, and return the cached reference when
accepted or the value itself when rejected. The mutex choreography is
sequentialized away. -/
def CachedFetcher.fetch (M : CacheModel K V) (F : K → V) (s : M.State) (k : K) :
    Option (M.State × V) :=
  if M.contains s k then
    let p := M.fetch s k
    p.2.map (fun v => (p.1, v))
  else
    let value := F k
    match M.store s k value with
    | (s', .inl w) => some (s', w)
    | (s', .inr w) => some (s', w)

/-- Transparency invariant: every value the cache can produce for a key is
the fetcher's value for that key. -/
def CacheModel.Transparent (M : CacheModel K V) (F : K → V) (s : M.State) : Prop :=
  ∀ k v, (M.fetch s k).2 = some v → v = F k

/-- `trex::cache::DummyCache`: never stores, every lookup misses. -/
def dummyCache (K V : Type) : CacheModel K V :=
  { State := Unit
    contains := fun _ _ => false
    fetch := fun s _ => (s, none)
    store := fun s _ v => (s, .inr v) }

/-- The `Cache` impl for `HashMap` (keys fixed to `Nat`, map modelled as an
association list with most-recent-first precedence): `store` always accepts
and returns the just-inserted value. -/
def hashMapCache (V : Type) : CacheModel Nat V :=
  { State := List (Nat × V)
    contains := fun s k => (alGet k s).isSome
    fetch := fun s k => (s, alGet k s)
    store := fun s k v => ((k, v) :: s, .inl v) }

/-- A `HasSize + HasCost` cache value for the GDSF policy. -/
structure GVal where
  sz : Nat
  cost : Nat
deriving DecidableEq

/-- `trex::cache::gdfs_cache::StorageEntry` (the `*const K` back-pointer is
the key itself, since keys here are `Nat` surrogates). -/
structure GEntry where
  key : Nat
  value : GVal
  frequency : Nat
  clock : Nat
deriving DecidableEq

/-- `StorageEntry::priority`: `clock + frequency * cost / size` in `usize`
arithmetic (integer division; entries are assumed to have nonzero size, as
division by zero would panic in the source). -/
def GEntry.priority (e : GEntry) : Nat :=
  e.clock + e.frequency * e.value.cost / e.value.sz

/-- `usize` subtraction in release mode: wraps modulo `2^64`. (In a debug
build `used + size - capacity` panics whenever the entry fits with room to
spare; the wrapping result is what a release binary computes.) -/
def usizeSub (a b : Nat) : Nat :=
  if b ≤ a then a - b else a + 2 ^ 64 - b

/-- Insert into the model of the `BTreeSet` queue, keeping ascending
lexicographic order of `(priority, pointer)`; the pointer component is the
key surrogate (one boxed entry per key). -/
def queueInsert (x : Nat × Nat) : List (Nat × Nat) → List (Nat × Nat)
  | [] => [x]
  | y :: ys => if x.1 < y.1 ∨ (x.1 = y.1 ∧ x.2 ≤ y.2) then x :: y :: ys
               else y :: queueInsert x ys

/-- `trex::cache::gdfs_cache::GDSFCache` state. -/
structure GDSFCache where
  capacity : Nat
  used : Nat
  storage : List (Nat × GEntry)
  queue : List (Nat × Nat)
  clock : Nat
deriving DecidableEq

/-- `GDSFCache::new`. -/
def GDSFCache.new (capacity : Nat) : GDSFCache :=
  { capacity := capacity, used := 0, storage := [], queue := [], clock := 0 }

/-- `GDSFCache::contains_key`. -/
def GDSFCache.contains_key (c : GDSFCache) (key : Nat) : Bool :=
  (alGet key c.storage).isSome

/-- `GDSFCache::remove`: drop the storage entry, subtract its size and drop
its queue node `(priority, ptr)`. -/
def GDSFCache.removeKey (c : GDSFCache) (key : Nat) : GDSFCache :=
  match alGet key c.storage with
  | none => c
  | some entry =>
    { c with
      used := c.used - entry.value.sz
      storage := c.storage.filter (fun p => !(p.1 = key))
      queue := c.queue.filter (fun q => !(q = (entry.priority, key))) }

/-- The accumulated sizes scanned over the ascending-priority prefix whose
priorities are at most the new entry's priority (`take_while` + `scan` in
`GDSFCache::insert`); queue pointers are dereferenced through storage. -/
def gdsfScanSizes (c : GDSFCache) (priority : Nat) : List Nat :=
  ((c.queue.takeWhile (fun q => q.1 ≤ priority)).map
    (fun q => ((alGet q.2 c.storage).map (·.value.sz)).getD 0)).scanl (· + ·) 0 |>.tail

/-- The eviction loop of `gdfs_cache.rs`' `GDSFCache::insert`: at each step
it reads the minimum queue element, sets `clock` to its priority — and then
calls `self.remove(&*key)` on the NEW entry's own key (a no-op, since that
key is not in storage at this point), leaving the queue untouched. -/
def gdsfEvictLoop (newKey : Nat) : Nat → GDSFCache → Option GDSFCache
  | 0, c => some c
  | n + 1, c => do
    let q ← c.queue.head?
    gdsfEvictLoop newKey n (GDSFCache.removeKey { c with clock := q.1 } newKey)

/-- `GDSFCache::insert` from `src/src/trex/cache/gdfs_cache.rs` (the
implementation wired into `trex::cache` and `trex::sqlite`): remove any
previous entry for the key, compute the new entry's priority, and when the
entry does not fit walk the ascending queue for a displaceable prefix; the
eviction loop then runs as in `gdsfEvictLoop`. Returns `inl` for
`Ok(cached)` and `inr` for `Err(value)`. -/
def GDSFCache.insert (c : GDSFCache) (key : Nat) (value : GVal) :
    Option (GDSFCache × (GVal ⊕ GVal)) := do
  let c := c.removeKey key
  let size := value.sz
  let entry : GEntry := { key := key, value := value, frequency := 1, clock := c.clock }
  let priority := entry.priority
  let excess := usizeSub (c.used + size) c.capacity
  let c ←
    if 0 < excess then
      match (gdsfScanSizes c priority).findIdx? (fun acc => excess ≤ acc) with
      | some num => gdsfEvictLoop key (num + 1) c
      | none => some { c with clock := priority }
    else
      some c
  if c.used + size ≤ c.capacity then
    some ({ c with
            storage := (key, entry) :: c.storage
            queue := queueInsert (priority, key) c.queue
            used := c.used + size }, .inl value)
  else
    some (c, .inr value)

/-- `GDSFCache::get_mut`: on a hit, re-key the queue node with the updated
priority (`frequency + 1`, `clock` re-anchored to the cache clock). -/
def GDSFCache.get_mut (c : GDSFCache) (key : Nat) : GDSFCache × Option GVal :=
  match alGet key c.storage with
  | none => (c, none)
  | some entry =>
    let updated : GEntry := { entry with clock := c.clock, frequency := entry.frequency + 1 }
    ({ c with
       storage := alSet key updated c.storage
       queue := queueInsert (updated.priority, key)
         (c.queue.filter (fun q => !(q = (entry.priority, key)))) },
     some updated.value)

/-- The queue of the older `trex::caches` `GDSFCache`: ordered triples
`(priority, key-pointer, size)`. -/
structure GDSFCacheV2 where
  capacity : Nat
  used : Nat
  storage : List (Nat × GEntry)
  queue : List (Nat × Nat × Nat)
  clock : Nat
deriving DecidableEq

/-- Ascending insert into the V2 queue. -/
def queueInsertV2 (x : Nat × Nat × Nat) : List (Nat × Nat × Nat) → List (Nat × Nat × Nat)
  | [] => [x]
  | y :: ys => if x.1 < y.1 ∨ (x.1 = y.1 ∧ x.2.1 ≤ y.2.1) then x :: y :: ys
               else y :: queueInsertV2 x ys

/-- `remove` of the `trex::caches` variant. -/
def GDSFCacheV2.removeKey (c : GDSFCacheV2) (key : Nat) : GDSFCacheV2 :=
  match alGet key c.storage with
  | none => c
  | some entry =>
    { c with
      used := c.used - entry.value.sz
      storage := c.storage.filter (fun p => !(p.1 = key))
      queue := c.queue.filter (fun q => !(q = (entry.priority, key, entry.value.sz))) }

/-- The eviction loop of the `trex::caches` variant: destructures the
minimum queue element as `(pri, key, _)` and removes THAT key — the victim —
so eviction works as intended. -/
def gdsfEvictLoopV2 : Nat → GDSFCacheV2 → Option GDSFCacheV2
  | 0, c => some c
  | n + 1, c => do
    let q ← c.queue.head?
    gdsfEvictLoopV2 n (GDSFCacheV2.removeKey { c with clock := q.1 } q.2.1)

/-- `GDSFCache::insert` from `src/src/trex/caches.rs` (the older sibling
implementation): identical policy skeleton, but the queue carries sizes and
the eviction loop removes the victim keys read from the queue. -/
def GDSFCacheV2.insert (c : GDSFCacheV2) (key : Nat) (value : GVal) :
    Option (GDSFCacheV2 × (GVal ⊕ GVal)) := do
  let c := c.removeKey key
  let size := value.sz
  let entry : GEntry := { key := key, value := value, frequency := 1, clock := c.clock }
  let priority := entry.priority
  let excess := usizeSub (c.used + size) c.capacity
  let c ←
    if 0 < excess then
      match (((c.queue.takeWhile (fun q => q.1 ≤ priority)).map (·.2.2)).scanl
          (· + ·) 0 |>.tail).findIdx? (fun acc => excess ≤ acc) with
      | some num => gdsfEvictLoopV2 (num + 1) c
      | none => some { c with clock := priority }
    else
      some c
  if c.used + size ≤ c.capacity then
    some ({ c with
            storage := (key, entry) :: c.storage
            queue := queueInsertV2 (priority, key, size) c.queue
            used := c.used + size }, .inl value)
  else
    some (c, .inr value)

/-- `ordered_float::NotNaN::from`: asserts the payload is not NaN (the
assertion failure — a panic — is `none`), and otherwise yields the exact
payload. -/
def NotNaN.from : FloatVal → Option ℚ
  | .nan => none
  | .num q => some q

/-- `impl PartialEq for Value` from `tesla/src/expressions.rs` (the reworked
`tesla` crate): float comparison routes both sides through `NotNaN::from`. -/
def Value.rust_eq : Value → Value → Option Bool
  | .int x, .int y => some (x = y)
  | .float x, .float y => do
    let nx ← NotNaN.from x
    let ny ← NotNaN.from y
    some (nx = ny)
  | .bool x, .bool y => some (x = y)
  | .str x, .str y => some (x = y)
  | _, _ => some false

/-- The data fed to the hasher by `impl Hash for Value`: floats are hashed
as `NotNaN::from(x)`; the hash-stream token is modelled by the canonical
injection of each branch. -/
inductive HashAtom where
  | intH : Int → HashAtom
  | floatH : ℚ → HashAtom
  | boolH : Bool → HashAtom
  | strH : String → HashAtom
deriving DecidableEq

/-- `impl Hash for Value` from `tesla/src/expressions.rs`: `none` models the
panic raised by `NotNaN::from` on a NaN payload. -/
def Value.rust_hash : Value → Option HashAtom
  | .int x => some (.intH x)
  | .float x => (NotNaN.from x).map .floatH
  | .bool x => some (.boolH x)
  | .str x => some (.strH x)

/-! ### Concrete instances used by witnesses and counterexamples -/

/-- An event tuple declaration with no attributes. -/
def declOf (id : Nat) (nm : String) : TupleDeclaration :=
  { ty := .event, id := id, name := nm, attributes := [] }

/-- An unconstrained event predicate on tuple type 7 with window
`Within 10` anchored at the trigger. -/
def wPred (sel : EventSelection) : Predicate :=
  { ty := .event sel [] ⟨0, .within 10⟩
    tuple := { ty_id := 7, constraints := [], aliasName := "b" } }

def wE1 : RcEvent := ⟨1, ⟨⟨7, []⟩, 93⟩⟩

def wE2 : RcEvent := ⟨2, ⟨⟨7, []⟩, 96⟩⟩

def wTrig : RcEvent := ⟨3, ⟨⟨3, []⟩, 100⟩⟩

/-- A stack for `wPred` holding two in-window events. -/
def wStack (sel : EventSelection) : Stack :=
  { tuple := declOf 7 "B", predicate := wPred sel, local_exprs := [], global_exprs := []
    timing := ⟨0, .within 10⟩, max_window := 0, events := [wE1, wE2] }

/-- Evaluation context seeded from the trigger event at time 100. -/
def wCtx : CompleteContext := CompleteContext.new [] (PartialResult.with_trigger wTrig)

/-- An event exactly at the lower window bound: its age behind the trigger
(100 − 90) equals the window (10). -/
def c2Event : RcEvent := ⟨4, ⟨⟨7, []⟩, 90⟩⟩

def c2Stack : Stack :=
  { tuple := declOf 7 "B", predicate := wPred .each, local_exprs := [], global_exprs := []
    timing := ⟨0, .within 10⟩, max_window := 0, events := [c2Event] }

def c3P0 : Predicate := ⟨.trigger [], ⟨3, [], "a"⟩⟩

def c3P1 : Predicate := ⟨.event .each [] ⟨0, .within 10⟩, ⟨7, [], "b"⟩⟩

def c3P2 : Predicate := ⟨.event .each [] ⟨1, .within 5⟩, ⟨8, [], "c"⟩⟩

/-- A `Between` predicate whose lower anchor is predicate 1 (window 10). -/
def c3P3 : Predicate := ⟨.event .each [] ⟨2, .between 1⟩, ⟨9, [], "d"⟩⟩

def c3Rule : Rule := ⟨[c3P0, c3P1, c3P2, c3P3], [], ⟨5, []⟩, []⟩

def c3Decls : List (Nat × TupleDeclaration) :=
  [(3, declOf 3 "A"), (7, declOf 7 "B"), (8, declOf 8 "C"), (9, declOf 9 "D")]

/-- An event three time units inside the 10-unit window of a trigger at 8. -/
def c3Old : RcEvent := ⟨9, ⟨⟨7, []⟩, 5⟩⟩

def c3Stack1 : Stack :=
  { tuple := declOf 7 "B", predicate := c3P1, local_exprs := [], global_exprs := []
    timing := ⟨0, .within 10⟩, max_window := 10, events := [c3Old] }

def c3Rs : RuleStacks := ⟨c3Rule, ⟨c3P0⟩, [(1, c3Stack1)]⟩

/-- The events removed by the `consuming` step: `e` is consumed for
predicate index `idx` when some surviving partial result binds an event
with `e`'s pointer at that index. -/
def consumedBy (idx : Nat) (survivors : List PartialResult) (e : RcEvent) : Bool :=
  survivors.any fun r => decide ((alGet idx r.tuples).map (·.ptr) = some e.ptr)

/-- A trigger-only rule emitting a constant attribute (witness input). -/
def c5Rule : Rule := ⟨[c3P0], [], ⟨5, [Expression.immediate (Value.int 42)]⟩, []⟩

def c5Rs : RuleStacks := ⟨c5Rule, ⟨c3P0⟩, []⟩

/-- A rule with one event predicate listed in `consuming` (witness input). -/
def c5bRule : Rule := ⟨[c3P0, c3P1], [], ⟨5, []⟩, [1]⟩

def c5bRs : RuleStacks := ⟨c5bRule, ⟨c3P0⟩, [(1, c3Stack1)]⟩

/-- An event-negation stack over tuple type 7, window `Within 10`. -/
def c6Stack (events : List RcEvent) : Stack :=
  { tuple := declOf 7 "B", predicate := ⟨.eventNegation ⟨0, .within 10⟩, ⟨7, [], "n"⟩⟩
    local_exprs := [], global_exprs := [], timing := ⟨0, .within 10⟩
    max_window := 0, events := events }

/-- A declaration with a single Int attribute (for aggregate witnesses). -/
def c7Decl : TupleDeclaration := ⟨.event, 7, "B", [⟨"x", .int⟩]⟩

/-- An event-aggregate stack over an Int attribute with an empty buffer. -/
def c7Stack (agg : Aggregator) : Stack :=
  { tuple := c7Decl
    predicate := ⟨.eventAggregate agg ⟨"p", Expression.aggregate⟩ ⟨0, .within 10⟩, ⟨7, [], "g"⟩⟩
    local_exprs := [], global_exprs := [], timing := ⟨0, .within 10⟩
    max_window := 0, events := [] }

/-- A trigger predicate on tuple type 3 whose constraint is identically
false, so no event can satisfy it. -/
def c4Trigger : Predicate :=
  ⟨.trigger [], ⟨3, [Expression.immediate (Value.bool false)], "a"⟩⟩

def c4Rule : Rule := ⟨[c4Trigger, wPred .each], [], ⟨5, []⟩, []⟩

def c4Rs : RuleStacks := ⟨c4Rule, ⟨c4Trigger⟩, [(1, wStack .each)]⟩

/-- A type-7 event: locally satisfies the stack's predicate but fails the
trigger's tuple-id check. -/
def c4Ev : RcEvent := ⟨5, ⟨⟨7, []⟩, 101⟩⟩

/-- A resident GDSF entry: size 10, cost 10, frequency 1, clock 0, so
priority `0 + 1*10/10 = 1`. -/
def c8EntryA : GEntry := { key := 1, value := ⟨10, 10⟩, frequency := 1, clock := 0 }

/-- A full cache (capacity 10, used 10) holding only `c8EntryA` under key 1. -/
def c8Cache : GDSFCache :=
  { capacity := 10, used := 10, storage := [(1, c8EntryA)], queue := [(1, 1)], clock := 0 }

/-- The same state for the `trex::caches` variant (queue carries sizes). -/
def c8CacheV2 : GDSFCacheV2 :=
  { capacity := 10, used := 10, storage := [(1, c8EntryA)], queue := [(1, 1, 10)], clock := 0 }

/-- The incoming value: size 10, cost 50, so priority `0 + 1*50/10 = 5`. -/
def c8NewVal : GVal := ⟨10, 50⟩

/-! ### Helper lemmas -/

theorem filterOpt_eq_filter (f : α → Option Bool) :
    ∀ l : List α, (∀ x ∈ l, (f x).isSome) →
      filterOpt f l = some (l.filter (fun x => (f x).getD false))
  | [], _ => rfl
  | x :: xs, h => by
    have hx : (f x).isSome := h x (List.mem_cons_self x xs)
    have ih := filterOpt_eq_filter f xs (fun y hy => h y (List.mem_cons_of_mem x hy))
    cases hfx : f x with
    | none => rw [hfx] at hx; simp at hx
    | some b =>
      cases b with
      | true => simp [filterOpt, hfx, ih, List.filter_cons]
      | false => simp [filterOpt, hfx, ih, List.filter_cons]

theorem findOpt_eq_head (f : α → Option Bool) :
    ∀ l : List α, (∀ x ∈ l, (f x).isSome) →
      findOpt f l = some ((l.filter (fun x => (f x).getD false)).head?)
  | [], _ => rfl
  | x :: xs, h => by
    have hx : (f x).isSome := h x (List.mem_cons_self x xs)
    have ih := findOpt_eq_head f xs (fun y hy => h y (List.mem_cons_of_mem x hy))
    cases hfx : f x with
    | none => rw [hfx] at hx; simp at hx
    | some b =>
      cases b with
      | true => simp [findOpt, hfx, List.filter_cons]
      | false => simp [findOpt, hfx, ih, List.filter_cons]

theorem anyOpt_eq_any (f : α → Option Bool) :
    ∀ l : List α, (∀ x ∈ l, (f x).isSome) →
      anyOpt f l = some (l.any (fun x => (f x).getD false))
  | [], _ => rfl
  | x :: xs, h => by
    have hx : (f x).isSome := h x (List.mem_cons_self x xs)
    have ih := anyOpt_eq_any f xs (fun y hy => h y (List.mem_cons_of_mem x hy))
    cases hfx : f x with
    | none => rw [hfx] at hx; simp at hx
    | some b =>
      cases b with
      | true => simp [anyOpt, hfx]
      | false => simp [anyOpt, hfx, ih]

theorem allOpt_eq_all (f : α → Option Bool) :
    ∀ l : List α, (∀ x ∈ l, (f x).isSome) →
      allOpt f l = some (l.all (fun x => (f x).getD false))
  | [], _ => rfl
  | x :: xs, h => by
    have hx : (f x).isSome := h x (List.mem_cons_self x xs)
    have ih := allOpt_eq_all f xs (fun y hy => h y (List.mem_cons_of_mem x hy))
    cases hfx : f x with
    | none => rw [hfx] at hx; simp at hx
    | some b =>
      cases b with
      | true => simp [allOpt, hfx, ih]
      | false => simp [allOpt, hfx]

theorem head?_min_of_pairwise {R : α → α → Prop} :
    ∀ {l : List α}, l.Pairwise R → ∀ x, l.head? = some x → ∀ y ∈ l, x = y ∨ R x y := by
  intro l hp x hx y hy
  cases l with
  | nil => simp at hx
  | cons a as =>
    simp only [List.head?_cons, Option.some.injEq] at hx
    subst hx
    rcases List.mem_cons.mp hy with h | h
    · exact Or.inl h.symm
    · exact Or.inr ((List.pairwise_cons.mp hp).1 y h)

theorem getLast?_max_of_pairwise {R : α → α → Prop} :
    ∀ {l : List α}, l.Pairwise R → ∀ x, l.getLast? = some x → ∀ y ∈ l, x = y ∨ R y x := by
  intro l hp x hx y hy
  have hrev : l.reverse.Pairwise (flip R) := (List.pairwise_reverse).mpr hp
  have hhead : l.reverse.head? = some x := by
    rw [List.head?_reverse]; exact hx
  have := head?_min_of_pairwise hrev x hhead y (List.mem_reverse.mpr hy)
  exact this

theorem Stack.evaluate_each (fuel : Nat) (s : Stack) (ctx : CompleteContext)
    (params : List ParameterDeclaration) (tm : Timing) (u l : Int)
    (hty : s.predicate.ty = .event .each params tm)
    (hb : resolveBounds s ctx.get_result = some (u, l))
    (htot : ∀ e ∈ s.events, (checkEvt fuel s ctx u l e).isSome) :
    s.evaluate fuel ctx =
      some ((s.events.filter (fun e => (checkEvt fuel s ctx u l e).getD false)).map
        ctx.get_result.push_event) := by
  have h1 : s.evaluate fuel ctx =
      (filterOpt (checkEvt fuel s ctx u l) s.events).map
        (List.map ctx.get_result.push_event) := by
    simp [Stack.evaluate, hb, hty]
  rw [h1, filterOpt_eq_filter _ _ htot]
  rfl

theorem Stack.evaluate_first (fuel : Nat) (s : Stack) (ctx : CompleteContext)
    (params : List ParameterDeclaration) (tm : Timing) (u l : Int)
    (hty : s.predicate.ty = .event .first params tm)
    (hb : resolveBounds s ctx.get_result = some (u, l))
    (htot : ∀ e ∈ s.events, (checkEvt fuel s ctx u l e).isSome) :
    s.evaluate fuel ctx =
      some ((((s.events.filter (fun e => (checkEvt fuel s ctx u l e).getD false)).head?).map
        ctx.get_result.push_event).toList) := by
  have h1 : s.evaluate fuel ctx =
      (findOpt (checkEvt fuel s ctx u l) s.events).map
        (fun found => (found.map ctx.get_result.push_event).toList) := by
    simp [Stack.evaluate, hb, hty]
  rw [h1, findOpt_eq_head _ _ htot]
  rfl

theorem Stack.evaluate_last (fuel : Nat) (s : Stack) (ctx : CompleteContext)
    (params : List ParameterDeclaration) (tm : Timing) (u l : Int)
    (hty : s.predicate.ty = .event .last params tm)
    (hb : resolveBounds s ctx.get_result = some (u, l))
    (htot : ∀ e ∈ s.events, (checkEvt fuel s ctx u l e).isSome) :
    s.evaluate fuel ctx =
      some ((((s.events.filter (fun e => (checkEvt fuel s ctx u l e).getD false)).getLast?).map
        ctx.get_result.push_event).toList) := by
  have htot' : ∀ e ∈ s.events.reverse, (checkEvt fuel s ctx u l e).isSome :=
    fun e he => htot e (List.mem_reverse.mp he)
  have h1 : s.evaluate fuel ctx =
      (findOpt (checkEvt fuel s ctx u l) s.events.reverse).map
        (fun found => (found.map ctx.get_result.push_event).toList) := by
    simp [Stack.evaluate, hb, hty]
  rw [h1, findOpt_eq_head _ _ htot', List.filter_reverse, List.head?_reverse]
  rfl

/-! ### Claim theorems -/

/-- C1: for an event predicate with resolved window bounds and panic-free
constraint checks, `Stack::evaluate` with selection `Each` emits exactly one
extended partial result per surviving event (in buffer order, so zero
survivors give zero results and `n` give `n`); with `First` it emits exactly
the result built from the head survivor — the earliest in time when the
buffer is chronologically ordered — and with `Last` from the last survivor,
the latest in time; both emit nothing when no event survives. -/
theorem C1_stack_selection_modes
    (fuel : Nat) (s : Stack) (ctx : CompleteContext)
    (sel : EventSelection) (params : List ParameterDeclaration) (tm : Timing)
    (u l : Int)
    (hty : s.predicate.ty = .event sel params tm)
    (hb : resolveBounds s ctx.get_result = some (u, l))
    (htot : ∀ e ∈ s.events, (checkEvt fuel s ctx u l e).isSome)
    (hsorted : s.events.Pairwise (fun a b => a.val.time ≤ b.val.time)) :
    (sel = .each →
      s.evaluate fuel ctx =
        some ((s.events.filter (fun e => (checkEvt fuel s ctx u l e).getD false)).map
          ctx.get_result.push_event)) ∧
    (sel = .first →
      s.evaluate fuel ctx =
        some ((((s.events.filter (fun e => (checkEvt fuel s ctx u l e).getD false)).head?).map
          ctx.get_result.push_event).toList) ∧
      ∀ e₀, (s.events.filter (fun e => (checkEvt fuel s ctx u l e).getD false)).head? = some e₀ →
        ∀ e ∈ s.events.filter (fun e => (checkEvt fuel s ctx u l e).getD false),
          e₀.val.time ≤ e.val.time) ∧
    (sel = .last →
      s.evaluate fuel ctx =
        some ((((s.events.filter (fun e => (checkEvt fuel s ctx u l e).getD false)).getLast?).map
          ctx.get_result.push_event).toList) ∧
      ∀ e₀, (s.events.filter (fun e => (checkEvt fuel s ctx u l e).getD false)).getLast? = some e₀ →
        ∀ e ∈ s.events.filter (fun e => (checkEvt fuel s ctx u l e).getD false),
          e.val.time ≤ e₀.val.time) := by
  have hfil : (s.events.filter (fun e => (checkEvt fuel s ctx u l e).getD false)).Pairwise
      (fun a b => a.val.time ≤ b.val.time) := hsorted.filter _
  refine ⟨?_, ?_, ?_⟩
  · intro hsel; subst hsel
    exact Stack.evaluate_each fuel s ctx params tm u l hty hb htot
  · intro hsel; subst hsel
    refine ⟨Stack.evaluate_first fuel s ctx params tm u l hty hb htot, ?_⟩
    intro e₀ he₀ e he
    rcases head?_min_of_pairwise hfil e₀ he₀ e he with h | h
    · exact le_of_eq (by rw [h])
    · exact h
  · intro hsel; subst hsel
    refine ⟨Stack.evaluate_last fuel s ctx params tm u l hty hb htot, ?_⟩
    intro e₀ he₀ e he
    rcases getLast?_max_of_pairwise hfil e₀ he₀ e he with h | h
    · exact le_of_eq (by rw [h])
    · exact h

/-- C1 witness: a buffer of two surviving events under each selection mode. -/
theorem C1_stack_selection_modes_witness :
    Stack.evaluate 1 (wStack .each) wCtx =
      some [(PartialResult.with_trigger wTrig).push_event wE1,
            (PartialResult.with_trigger wTrig).push_event wE2] ∧
    Stack.evaluate 1 (wStack .first) wCtx =
      some [(PartialResult.with_trigger wTrig).push_event wE1] ∧
    Stack.evaluate 1 (wStack .last) wCtx =
      some [(PartialResult.with_trigger wTrig).push_event wE2] := by
  have hEach := C1_stack_selection_modes 1 (wStack .each) wCtx .each [] ⟨0, .within 10⟩
    100 90 rfl (by decide) (by decide) (by decide)
  have hFirst := C1_stack_selection_modes 1 (wStack .first) wCtx .first [] ⟨0, .within 10⟩
    100 90 rfl (by decide) (by decide) (by decide)
  have hLast := C1_stack_selection_modes 1 (wStack .last) wCtx .last [] ⟨0, .within 10⟩
    100 90 rfl (by decide) (by decide) (by decide)
  refine ⟨?_, ?_, ?_⟩
  · rw [hEach.1 rfl]; decide
  · rw [(hFirst.2.1 rfl).1]; decide
  · rw [(hLast.2.2 rfl).1]; decide

/-- C2 counterexample: an event whose age behind the trigger equals the
window exactly (trigger at 100, event at 90, `Within 10`) is NOT excluded —
`Stack::evaluate` emits the extended partial result built from it, because
the lower bound of the half-open window `[lower, upper)` is inclusive. -/
theorem C2_counterexample :
    c2Stack.timing.bound = .within (wTrig.val.time - c2Event.val.time) ∧
    Stack.evaluate 1 c2Stack wCtx =
      some [(PartialResult.with_trigger wTrig).push_event c2Event] := by
  decide

/-- C2 (amended): a candidate event is kept exactly when
`lower ≤ time < upper` with the global constraints satisfied, where `upper`
is the bound time at the `upper` predicate and `lower` is `upper − window`
(`Within`) or the bound time at the lower predicate (`Between`); an event
whose age behind the anchor equals the window exactly sits at `lower` and is
therefore INCLUDED (subject only to the global constraints, for a positive
window), while the excluded boundary is `upper`: events at or after `upper`
are dropped. -/
theorem C2_window_half_open
    (fuel : Nat) (s : Stack) (ctx : CompleteContext)
    (params : List ParameterDeclaration) (tm : Timing) (u l : Int)
    (hty : s.predicate.ty = .event .each params tm)
    (hb : resolveBounds s ctx.get_result = some (u, l))
    (htot : ∀ e ∈ s.events, (checkEvt fuel s ctx u l e).isSome) :
    (∀ e, checkEvt fuel s ctx u l e = some true ↔
      (l ≤ e.val.time ∧ e.val.time < u ∧
        s.is_globally_satisfied fuel (ctx.set_tuple ⟨e.ptr, e.val.tuple⟩) = some true)) ∧
    (s.evaluate fuel ctx =
      some ((s.events.filter (fun e => (checkEvt fuel s ctx u l e).getD false)).map
        ctx.get_result.push_event)) ∧
    (∀ e, e.val.time = l →
      checkEvt fuel s ctx u l e =
        (if l < u then s.is_globally_satisfied fuel (ctx.set_tuple ⟨e.ptr, e.val.tuple⟩)
         else some false)) ∧
    (∀ e, u ≤ e.val.time → checkEvt fuel s ctx u l e = some false) := by
  refine ⟨?_, Stack.evaluate_each fuel s ctx params tm u l hty hb htot, ?_, ?_⟩
  · intro e
    by_cases h : e.val.time < u ∧ l ≤ e.val.time
    · simp only [checkEvt, if_pos h]
      exact ⟨fun hg => ⟨h.2, h.1, hg⟩, fun hg => hg.2.2⟩
    · simp only [checkEvt, if_neg h]
      constructor
      · intro hfalse; exact absurd hfalse (by simp)
      · intro hg; exact absurd ⟨hg.2.1, hg.1⟩ h
  · intro e het
    by_cases hlu : l < u
    · have : e.val.time < u ∧ l ≤ e.val.time := ⟨het ▸ hlu, le_of_eq het.symm⟩
      simp only [checkEvt, if_pos this, if_pos hlu]
    · have : ¬(e.val.time < u ∧ l ≤ e.val.time) := fun hc => hlu (het ▸ hc.1)
      simp only [checkEvt, if_neg this, if_neg hlu]
  · intro e hue
    have : ¬(e.val.time < u ∧ l ≤ e.val.time) := fun hc => absurd hc.1 (not_lt.mpr hue)
    simp only [checkEvt, if_neg this]

/-- C2 witness: the boundary event at exactly `lower` passes the window
check and the whole buffer evaluation emits it. -/
theorem C2_window_half_open_witness :
    checkEvt 1 c2Stack wCtx 100 90 c2Event = some true ∧
    Stack.evaluate 1 c2Stack wCtx =
      some [(PartialResult.with_trigger wTrig).push_event c2Event] := by
  have h := C2_window_half_open 1 c2Stack wCtx [] ⟨0, .within 10⟩ 100 90
    rfl (by decide) (by decide)
  constructor
  · rw [h.2.2.1 c2Event (by decide)]; decide
  · rw [h.2.1]; decide

/-- C3: evaluated at the failing input, `RuleStacks::remove_old_events`
discards an event that is well inside the window — the stack anchored at the
trigger (`upper = 0`) retains only events with `time ≥ trigger_time`, never
consulting `max_window` (the event at time 5 is removed although
`5 < 8 − 10` is false) — and `RuleStacks::new` computes the `Between`
stack's `max_window` from the pre-sweep zeros instead of inheriting the
lower predicate's window. -/
theorem C3_eviction_divergence :
    RuleStacks.remove_old_events c3Rs 8 = some [(1, { c3Stack1 with events := [] })] ∧
    ¬(c3Old.val.time < 8 - c3Stack1.max_window) ∧
    ((RuleStacks.new c3Rule c3Decls).map (fun rs => (alGet 3 rs.stks).map (·.max_window)) =
      some (some 0)) ∧
    ((RuleStacks.new c3Rule c3Decls).map (fun rs => (alGet 1 rs.stks).map (·.max_window)) =
      some (some 10)) := by
  decide

theorem processAll_eq (ev : RcEvent) :
    ∀ l : List (Nat × Stack), (∀ p ∈ l, (Stack.is_locally_satisfied p.2 ev).isSome) →
      mapOpt (fun p => (Stack.process p.2 ev).map (p.1, ·)) l =
        some (l.map (fun p => (p.1,
          if (Stack.is_locally_satisfied p.2 ev).getD false
          then { p.2 with events := p.2.events ++ [ev] } else p.2)))
  | [], _ => rfl
  | p :: ps, h => by
    have hp : (Stack.is_locally_satisfied p.2 ev).isSome := h p (List.mem_cons_self p ps)
    have ih := processAll_eq ev ps (fun q hq => h q (List.mem_cons_of_mem p hq))
    cases hsat : Stack.is_locally_satisfied p.2 ev with
    | none => rw [hsat] at hp; simp at hp
    | some b =>
      have hproc : Stack.process p.2 ev =
          some (if b then { p.2 with events := p.2.events ++ [ev] } else p.2) := by
        rw [Stack.process, hsat]; rfl
      cases b with
      | true => simp [mapOpt, hproc, ih, hsat]
      | false => simp [mapOpt, hproc, ih, hsat]

/-- C4: the published event is offered to every event stack — each stack
appends it exactly when its tuple id matches and the local constraints hold,
regardless of the trigger — and when the event fails the trigger's tuple-id
or constraint check, `RuleStacks::process` returns the offered stacks with
an empty emitted batch. -/
theorem C4_trigger_exclusivity (fuel : Nat) (rs : RuleStacks) (ev : RcEvent)
    (hloc : ∀ p ∈ rs.stks, (Stack.is_locally_satisfied p.2 ev).isSome) :
    (mapOpt (fun p => (Stack.process p.2 ev).map (p.1, ·)) rs.stks =
      some (rs.stks.map (fun p => (p.1,
        if (Stack.is_locally_satisfied p.2 ev).getD false
        then { p.2 with events := p.2.events ++ [ev] } else p.2)))) ∧
    (rs.trigger.is_satisfied ev = some false →
      RuleStacks.process fuel rs ev =
        some ({ rs with stks := rs.stks.map (fun p => (p.1,
          if (Stack.is_locally_satisfied p.2 ev).getD false
          then { p.2 with events := p.2.events ++ [ev] } else p.2)) }, [])) := by
  have hall := processAll_eq ev rs.stks hloc
  refine ⟨hall, ?_⟩
  intro htrig
  simp [RuleStacks.process, hall, htrig]

/-- C4 witness: a type-7 event fails the type-3 trigger but is still
appended to the stack buffer; no event is emitted. -/
theorem C4_trigger_exclusivity_witness :
    RuleStacks.process 1 c4Rs c4Ev =
      some ({ c4Rs with stks := [(1, { wStack .each with events := [wE1, wE2, c4Ev] })] },
        []) := by
  have h := (C4_trigger_exclusivity 1 c4Rs c4Ev (by decide)).2 (by decide)
  rw [h]; decide

theorem mapOpt_length (f : α → Option β) :
    ∀ (l : List α) (ys : List β), mapOpt f l = some ys → ys.length = l.length
  | [], ys, h => by
    rw [mapOpt] at h
    cases h
    rfl
  | x :: xs, ys, h => by
    rw [mapOpt] at h
    cases hfx : f x with
    | none => rw [hfx] at h; simp at h
    | some y =>
      cases hrest : mapOpt f xs with
      | none => rw [hfx, hrest] at h; simp at h
      | some zs =>
        rw [hfx, hrest] at h
        simp at h
        subst h
        simp [mapOpt_length f xs zs hrest]

theorem mapOpt_mem (f : α → Option β) :
    ∀ (l : List α) (ys : List β), mapOpt f l = some ys →
      ∀ y ∈ ys, ∃ x ∈ l, f x = some y
  | [], ys, h => by
    rw [mapOpt] at h
    cases h
    simp
  | x :: xs, ys, h => by
    rw [mapOpt] at h
    cases hfx : f x with
    | none => rw [hfx] at h; simp at h
    | some y =>
      cases hrest : mapOpt f xs with
      | none => rw [hfx, hrest] at h; simp at h
      | some zs =>
        rw [hfx, hrest] at h
        simp at h
        subst h
        intro b hb
        rcases List.mem_cons.mp hb with hb | hb
        · exact ⟨x, List.mem_cons_self x xs, hb ▸ hfx⟩
        · obtain ⟨a, ha, hfa⟩ := mapOpt_mem f xs zs hrest b hb
          exact ⟨a, List.mem_cons_of_mem x ha, hfa⟩

theorem alGet_alSet_self (k : Nat) (v : α) :
    ∀ (l : List (Nat × α)) (x : α), alGet k l = some x → alGet k (alSet k v l) = some v
  | [], x, h => by simp [alGet] at h
  | (k', w) :: rest, x, h => by
    by_cases hk : k' = k
    · subst hk
      show alGet k' ((if k' = k' then (k', v) else (k', w)) :: alSet k' v rest) = some v
      rw [if_pos rfl]
      show (if k' = k' then some v else alGet k' (alSet k' v rest)) = some v
      rw [if_pos rfl]
    · have hne : ¬(k = k') := fun he => hk he.symm
      rw [alGet, if_neg hne] at h
      show alGet k ((if k' = k then (k, v) else (k', w)) :: alSet k v rest) = some v
      rw [if_neg hk]
      show (if k = k' then some w else alGet k (alSet k v rest)) = some v
      rw [if_neg hne]
      exact alGet_alSet_self k v rest x h

theorem alGet_alSet_ne (j k : Nat) (v : α) (hjk : j ≠ k) :
    ∀ l : List (Nat × α), alGet j (alSet k v l) = alGet j l
  | [] => rfl
  | (k', w) :: rest => by
    by_cases hk : k' = k
    · subst hk
      show alGet j ((if k' = k' then (k', v) else (k', w)) :: alSet k' v rest) =
        alGet j ((k', w) :: rest)
      rw [if_pos rfl]
      show (if j = k' then some v else alGet j (alSet k' v rest)) =
        (if j = k' then some w else alGet j rest)
      rw [if_neg hjk, if_neg hjk]
      exact alGet_alSet_ne j k' v hjk rest
    · show alGet j ((if k' = k then (k, v) else (k', w)) :: alSet k v rest) =
        alGet j ((k', w) :: rest)
      rw [if_neg hk]
      show (if j = k' then some w else alGet j (alSet k v rest)) =
        (if j = k' then some w else alGet j rest)
      by_cases hj : j = k'
      · rw [if_pos hj, if_pos hj]
      · rw [if_neg hj, if_neg hj]
        exact alGet_alSet_ne j k v hjk rest

theorem filter_idem (p : α → Bool) (l : List α) : (l.filter p).filter p = l.filter p := by
  rw [List.filter_filter]
  simp only [Bool.and_self]

theorem foldConsume (idx : Nat) :
    ∀ (survivors : List PartialResult) (st st' : Stack),
      foldOpt (fun st r => (alGet idx r.tuples).map (fun tref => st.consumePtr tref.ptr))
        st survivors = some st' →
      st' = { st with events := st.events.filter (fun e => !(consumedBy idx survivors e)) }
  | [], st, st', h => by
    rw [foldOpt] at h
    cases h
    simp [consumedBy]
  | r :: rest, st, st', h => by
    rw [foldOpt] at h
    cases halg : alGet idx r.tuples with
    | none => rw [halg] at h; simp at h
    | some tr =>
      rw [halg] at h
      simp only [Option.map_some', Option.some_bind] at h
      have ih := foldConsume idx rest (st.consumePtr tr.ptr) st' h
      rw [ih]
      simp only [Stack.consumePtr]
      rw [List.filter_filter]
      congr 1
      apply List.filter_congr
      intro e _
      simp [consumedBy, halg, Bool.not_or, Bool.and_comm, eq_comm]

theorem consumeAll_spec (survivors : List PartialResult) :
    ∀ (consuming : List Nat) (stks stks' : List (Nat × Stack)),
      consumeAll consuming survivors stks = some stks' →
      (∀ idx, idx ∉ consuming → alGet idx stks' = alGet idx stks) ∧
      (∀ idx ∈ consuming, ∃ st st', alGet idx stks = some st ∧ alGet idx stks' = some st' ∧
          st'.events = st.events.filter (fun e => !(consumedBy idx survivors e)))
  | [], stks, stks', h => by
    rw [consumeAll, foldOpt] at h
    cases h
    exact ⟨fun _ _ => rfl, by simp⟩
  | idx₀ :: rest, stks, stks', h => by
    rw [consumeAll, foldOpt] at h
    cases halg : alGet idx₀ stks with
    | none => simp [halg] at h
    | some st =>
      cases hin : foldOpt
          (fun st r => (alGet idx₀ r.tuples).map (fun tref => st.consumePtr tref.ptr))
          st survivors with
      | none => simp [halg, hin] at h
      | some st₁ =>
        simp [halg, hin] at h
        have hst₁ := foldConsume idx₀ survivors st st₁ hin
        have hrec : consumeAll rest survivors (alSet idx₀ st₁ stks) = some stks' := by
          rw [consumeAll]; exact h
        obtain ⟨ihA, ihB⟩ := consumeAll_spec survivors rest (alSet idx₀ st₁ stks) stks' hrec
        constructor
        · intro idx hidx
          have h1 : idx ≠ idx₀ := fun he => hidx (he ▸ List.mem_cons_self idx₀ rest)
          have h2 : idx ∉ rest := fun hm => hidx (List.mem_cons_of_mem idx₀ hm)
          rw [ihA idx h2, alGet_alSet_ne idx idx₀ st₁ h1]
        · intro idx hidx
          by_cases he : idx = idx₀
          · subst he
            by_cases hr : idx ∈ rest
            · obtain ⟨stM, stF, hgM, hgF, hev⟩ := ihB idx hr
              rw [alGet_alSet_self idx st₁ stks st halg] at hgM
              cases hgM
              refine ⟨st, stF, halg, hgF, ?_⟩
              rw [hev, hst₁]
              exact filter_idem _ _
            · have hkeep := ihA idx hr
              rw [alGet_alSet_self idx st₁ stks st halg] at hkeep
              refine ⟨st, st₁, halg, hkeep, ?_⟩
              rw [hst₁]
          · have hm : idx ∈ rest := by
              rcases List.mem_cons.mp hidx with h' | h'
              · exact absurd h' he
              · exact h'
            obtain ⟨stM, stF, hgM, hgF, hev⟩ := ihB idx hm
            rw [alGet_alSet_ne idx idx₀ st₁ he] at hgM
            exact ⟨stM, stF, hgM, hgF, hev⟩

theorem renderTemplate_shape (fuel : Nat) (preds : List Predicate)
    (template : EventTemplate) (t : Int) (r : PartialResult) (b : Event)
    (h : renderTemplate fuel preds template t r = some b) :
    b.time = t ∧ b.tuple.ty_id = template.ty_id := by
  rw [renderTemplate] at h
  cases hm : mapOpt (fun a => completeEval fuel (CompleteContext.new preds r) a)
      template.attributes with
  | none => rw [hm] at h; simp at h
  | some data =>
    rw [hm] at h
    have h2 : ({ tuple := { ty_id := template.ty_id, data := data }, time := t } : Event) = b := by
      simpa using h
    subst h2
    exact ⟨rfl, rfl⟩

/-- C5: the pipeline tail (modelled from the spec, since `rule_processor.rs`
is declared and called but missing from the sources): after the fold and the
filter expressions, for each index in the rule's `consuming` list the events
bound at that index in surviving partial results are removed — by pointer
identity, nothing else is removed, and stacks at unlisted indices are
untouched — and each surviving partial result is rendered through the event
template into a new `Event` stamped with the trigger event's time;
`processFull` returns exactly this batch. -/
theorem C5_pipeline_tail (fuel : Nat) (rs : RuleStacks) (ev : RcEvent)
    (stacks1 stacks2 stacks3 : List (Nat × Stack))
    (results filtered : List PartialResult) (batch : List Event)
    (h1 : mapOpt (fun p => (Stack.process p.2 ev).map (p.1, ·)) rs.stks = some stacks1)
    (h2 : rs.trigger.is_satisfied ev = some true)
    (h3 : removeOldEventsGo ev.val.time stacks1 [(0, ev.val.time)] = some stacks2)
    (h4 : pipelineFold fuel rs.rule.predicates stacks2
      [PartialResult.with_trigger ev] = some results)
    (h5 : applyFilters fuel rs.rule.predicates rs.rule.filters results = some filtered)
    (h6 : consumeAll rs.rule.consuming filtered stacks2 = some stacks3)
    (h7 : mapOpt (renderTemplate fuel rs.rule.predicates rs.rule.event_template ev.val.time)
      filtered = some batch) :
    RuleStacks.processFull fuel rs ev = some ({ rs with stks := stacks3 }, batch) ∧
    batch.length = filtered.length ∧
    (∀ b ∈ batch, b.time = ev.val.time ∧ b.tuple.ty_id = rs.rule.event_template.ty_id) ∧
    (∀ idx ∈ rs.rule.consuming, ∃ st st', alGet idx stacks2 = some st ∧
      alGet idx stacks3 = some st' ∧
      st'.events = st.events.filter (fun e => !(consumedBy idx filtered e))) ∧
    (∀ idx, idx ∉ rs.rule.consuming → alGet idx stacks3 = alGet idx stacks2) := by
  obtain ⟨huntouched, hconsumed⟩ := consumeAll_spec filtered rs.rule.consuming stacks2 stacks3 h6
  refine ⟨?_, mapOpt_length _ _ _ h7, ?_, hconsumed, huntouched⟩
  · simp [RuleStacks.processFull, h1, h2, h3, h4, h5, h6, h7]
  · intro b hb
    obtain ⟨r, _, hr⟩ := mapOpt_mem _ _ _ h7 b hb
    exact renderTemplate_shape fuel rs.rule.predicates rs.rule.event_template
      ev.val.time r b hr

/-- C5 witness: a trigger-only rule renders one event stamped with the
trigger time, and a rule with a consumed event stack runs the consuming
step (vacuously, as the revision's eviction empties the buffer first). -/
theorem C5_pipeline_tail_witness :
    RuleStacks.processFull 1 c5Rs wTrig =
      some ({ c5Rs with stks := [] }, [⟨⟨5, [Value.int 42]⟩, 100⟩]) ∧
    RuleStacks.processFull 1 c5bRs wTrig =
      some ({ c5bRs with stks := [(1, { c3Stack1 with events := [] })] }, []) := by
  constructor
  · exact (C5_pipeline_tail 1 c5Rs wTrig [] [] [] [PartialResult.with_trigger wTrig]
      [PartialResult.with_trigger wTrig] [⟨⟨5, [Value.int 42]⟩, 100⟩]
      (by decide) (by decide) (by decide) (by decide) (by decide) (by decide) (by decide)).1
  · exact (C5_pipeline_tail 1 c5bRs wTrig [(1, c3Stack1)]
      [(1, { c3Stack1 with events := [] })] [(1, { c3Stack1 with events := [] })]
      [] [] []
      (by decide) (by decide) (by decide) (by decide) (by decide) (by decide) (by decide)).1

/-- C6: an `EventNegation` stack emits exactly the unchanged input partial
result when no buffered event passes the windowed global check, and emits
nothing otherwise; and the `Exists` branch of `SQLiteDriver::evaluate`
(static negation) emits the input result exactly when the existence query
found no row. -/
theorem C6_negation (fuel : Nat) (s : Stack) (ctx : CompleteContext) (tm : Timing)
    (u l : Int)
    (hty : s.predicate.ty = .eventNegation tm)
    (hb : resolveBounds s ctx.get_result = some (u, l))
    (htot : ∀ e ∈ s.events, (checkEvt fuel s ctx u l e).isSome) :
    (s.evaluate fuel ctx =
      some (if s.events.any (fun e => (checkEvt fuel s ctx u l e).getD false)
            then [] else [ctx.get_result])) ∧
    (∀ (idx : Nat) (res : ParamsResult) (ex : Bool),
      SQLiteDriver.evaluateEntry idx (.exs ex) res = some (if ex then [] else [res])) := by
  constructor
  · have h1 : s.evaluate fuel ctx =
        (anyOpt (checkEvt fuel s ctx u l) s.events).bind
          (fun found => some (if !found then [ctx.get_result] else [])) := by
      simp [Stack.evaluate, hb, hty]
    rw [h1, anyOpt_eq_any _ _ htot]
    by_cases hany : s.events.any (fun e => (checkEvt fuel s ctx u l e).getD false) <;>
      simp [hany]
  · intro idx res ex
    cases ex <;> rfl

/-- C6 witness: a surviving buffered event suppresses the negation; an empty
buffer lets the input result through; the `Exists` entry behaves dually. -/
theorem C6_negation_witness :
    Stack.evaluate 1 (c6Stack [wE1]) wCtx = some [] ∧
    Stack.evaluate 1 (c6Stack []) wCtx = some [wCtx.get_result] ∧
    SQLiteDriver.evaluateEntry 2 (.exs false) ⟨[]⟩ = some [⟨[]⟩] ∧
    SQLiteDriver.evaluateEntry 2 (.exs true) ⟨[]⟩ = some [] := by
  have h1 := C6_negation 1 (c6Stack [wE1]) wCtx ⟨0, .within 10⟩ 100 90
    rfl (by decide) (by decide)
  have h2 := C6_negation 1 (c6Stack []) wCtx ⟨0, .within 10⟩ 100 90
    rfl (by decide) (by decide)
  refine ⟨?_, ?_, h1.2 2 ⟨[]⟩ false, h1.2 2 ⟨[]⟩ true⟩
  · rw [h1.1]; decide
  · rw [h2.1]; decide

/-- C7: on an empty sequence of event references, `compute_aggregate`
returns `Some(0)` for `Sum` (Int zero or Float zero per the attribute type)
and `Some(0)` for `Count`, while `Avg`, `Min` and `Max` return `None`, for
both Int and Float attributes; accordingly an `EventAggregate` stack with an
empty buffer emits one extended partial result for Sum/Count and none for
Avg/Min/Max. -/
theorem C7_empty_aggregates (fuel : Nat) (attrs : List AttributeDeclaration)
    (attr : Nat) (decl : AttributeDeclaration)
    (hattr : attrs[attr]? = some decl)
    (hnum : decl.ty = .int ∨ decl.ty = .float) :
    compute_aggregate (.sum attr) [] attrs =
      some (some (if decl.ty = .int then Value.int 0 else Value.float (.num 0))) ∧
    compute_aggregate .count [] attrs = some (some (.int 0)) ∧
    compute_aggregate (.avg attr) [] attrs = some none ∧
    compute_aggregate (.min attr) [] attrs = some none ∧
    compute_aggregate (.max attr) [] attrs = some none ∧
    (∀ (s : Stack) (ctx : CompleteContext) (agg : Aggregator)
        (pd : ParameterDeclaration) (tm : Timing),
      s.predicate.ty = .eventAggregate agg pd tm → s.events = [] →
      (resolveBounds s ctx.get_result).isSome →
      s.evaluate fuel ctx =
        (compute_aggregate agg [] s.tuple.attributes).map
          (fun res => (res.map ctx.get_result.push_aggregate).toList)) := by
  refine ⟨?_, ?_, ?_, ?_, ?_, ?_⟩
  · rcases hnum with hn | hn <;>
      simp [compute_aggregate, hattr, hn, mapExtractInt, mapExtractFloat, mapOpt,
        FloatVal.isNan]
  · rfl
  · rcases hnum with hn | hn <;>
      simp [compute_aggregate, hattr, hn, mapExtractInt, mapExtractFloat, mapOpt]
  · rcases hnum with hn | hn <;>
      simp [compute_aggregate, hattr, hn, mapExtractInt, mapExtractFloat, mapOpt,
        FloatVal.isNan]
  · rcases hnum with hn | hn <;>
      simp [compute_aggregate, hattr, hn, mapExtractInt, mapExtractFloat, mapOpt,
        FloatVal.isNan]
  · intro s ctx agg pd tm hty hev hbs
    obtain ⟨bounds, hb⟩ := Option.isSome_iff_exists.mp hbs
    cases hc : compute_aggregate agg [] s.tuple.attributes with
    | none => simp [Stack.evaluate, hb, hty, hev, filterOpt, hc]
    | some res => simp [Stack.evaluate, hb, hty, hev, filterOpt, hc]

/-- C7 witness: empty-buffer aggregates over an Int attribute. -/
theorem C7_empty_aggregates_witness :
    compute_aggregate (.sum 0) [] c7Decl.attributes = some (some (.int 0)) ∧
    compute_aggregate .count [] c7Decl.attributes = some (some (.int 0)) ∧
    compute_aggregate (.avg 0) [] c7Decl.attributes = some none ∧
    compute_aggregate (.min 0) [] c7Decl.attributes = some none ∧
    compute_aggregate (.max 0) [] c7Decl.attributes = some none ∧
    Stack.evaluate 1 (c7Stack (.sum 0)) wCtx =
      some [wCtx.get_result.push_aggregate (.int 0)] ∧
    Stack.evaluate 1 (c7Stack (.min 0)) wCtx = some [] := by
  have h := C7_empty_aggregates 1 c7Decl.attributes 0 ⟨"x", .int⟩ (by decide) (Or.inl rfl)
  refine ⟨?_, h.2.1, ?_, ?_, ?_, ?_, ?_⟩
  · rw [h.1]; decide
  · exact h.2.2.1
  · exact h.2.2.2.1
  · exact h.2.2.2.2.1
  · rw [h.2.2.2.2.2 (c7Stack (.sum 0)) wCtx (.sum 0) ⟨"p", Expression.aggregate⟩
      ⟨0, .within 10⟩ rfl rfl (by decide)]
    decide
  · rw [h.2.2.2.2.2 (c7Stack (.min 0)) wCtx (.min 0) ⟨"p", Expression.aggregate⟩
      ⟨0, .within 10⟩ rfl rfl (by decide)]
    decide

/-- C8: at the failing input — a full cache holding one entry of priority 1
and an incoming entry of priority 5 and equal size — the GDSF policy (and
the sibling `trex::caches` implementation, shown second) must evict the
prefix and accept the insert; the live `gdfs_cache.rs` implementation
instead advances `clock` and REJECTS the insert, because its eviction loop
removes the new entry's own key rather than the victim read from the queue.
The third conjunct records that the displaceable prefix existed: the
resident priority is at most the new priority and its size covers the
excess. -/
theorem C8_gdsf_insert_divergence :
    GDSFCache.insert c8Cache 2 c8NewVal = some ({ c8Cache with clock := 1 }, Sum.inr c8NewVal) ∧
    GDSFCacheV2.insert c8CacheV2 2 c8NewVal =
      some ({ capacity := 10, used := 10
              storage := [(2, { key := 2, value := c8NewVal, frequency := 1, clock := 0 })]
              queue := [(5, 2, 10)], clock := 1 }, Sum.inl c8NewVal) ∧
    (c8EntryA.priority ≤ (GEntry.mk 2 c8NewVal 1 0).priority ∧
      usizeSub (c8Cache.used + c8NewVal.sz) c8Cache.capacity ≤ c8EntryA.value.sz) := by
  decide

/-- C9: for every cache policy satisfying the honesty laws of the `Cache`
trait — `contains` implies a fetchable value, `fetch`'s mutation preserves
contents, `store` returns exactly the stored/rejected value and only adds
the stored binding — `CachedFetcher::fetch` returns the fetcher's value
`F(key)` on both the hit and the miss path (cached or uncached), and
preserves the transparency invariant. -/
theorem C9_cache_transparency (K V : Type) (M : CacheModel K V) (F : K → V)
    (s : M.State) (k : K)
    (hcontains : ∀ s k, M.contains s k = true → ((M.fetch s k).2).isSome)
    (hfetchInv : ∀ s k, M.Transparent F s → M.Transparent F (M.fetch s k).1)
    (hstoreOk : ∀ s k v s' w, M.store s k v = (s', Sum.inl w) → w = v)
    (hstoreErr : ∀ s k v s' w, M.store s k v = (s', Sum.inr w) → w = v)
    (hstoreInv : ∀ s k s' r, M.store s k (F k) = (s', r) →
      M.Transparent F s → M.Transparent F s')
    (hs : M.Transparent F s) :
    ∃ s', CachedFetcher.fetch M F s k = some (s', F k) ∧ M.Transparent F s' := by
  by_cases hc : M.contains s k
  · obtain ⟨v, hv⟩ := Option.isSome_iff_exists.mp (hcontains s k hc)
    refine ⟨(M.fetch s k).1, ?_, hfetchInv s k hs⟩
    simp [CachedFetcher.fetch, hc, hv, hs k v hv]
  · cases hst : M.store s k (F k) with
    | mk s' r =>
      cases r with
      | inl w =>
        refine ⟨s', ?_, hstoreInv s k s' _ hst hs⟩
        simp [CachedFetcher.fetch, hc, hst, hstoreOk s k (F k) s' w hst]
      | inr w =>
        refine ⟨s', ?_, hstoreInv s k s' _ hst hs⟩
        simp [CachedFetcher.fetch, hc, hst, hstoreErr s k (F k) s' w hst]

/-- C9 witness: the `DummyCache` miss path (store rejected, value returned
uncached) and the `HashMap` cache hit path both observe `F(key)`. -/
theorem C9_cache_transparency_witness :
    (∃ s', CachedFetcher.fetch (dummyCache Nat Nat) (fun k => k + 1) () 5 = some (s', 6) ∧
      (dummyCache Nat Nat).Transparent (fun k => k + 1) s') ∧
    (∃ s', CachedFetcher.fetch (hashMapCache Nat) (fun k => k + 1) [(3, 4)] 3 = some (s', 4) ∧
      (hashMapCache Nat).Transparent (fun k => k + 1) s') := by
  constructor
  · exact C9_cache_transparency Nat Nat (dummyCache Nat Nat) (fun k => k + 1) () 5
      (fun s k h => by simp [dummyCache] at h)
      (fun s k hs => hs)
      (fun s k v s' w h => by
        injection h with h1 h2
        exact Sum.noConfusion h2)
      (fun s k v s' w h => by
        injection h with h1 h2
        injection h2 with h3
        exact h3.symm)
      (fun s k s' r h hs => hs)
      (fun k v h => Option.noConfusion h)
  · exact C9_cache_transparency Nat Nat (hashMapCache Nat) (fun k => k + 1) [(3, 4)] 3
      (fun s k h => h)
      (fun s k hs => hs)
      (fun s k v s' w h => by
        injection h with h1 h2
        injection h2 with h3
        exact h3.symm)
      (fun s k v s' w h => by
        injection h with h1 h2
        exact Sum.noConfusion h2)
      (fun s k s' r h hs => by
        simp only [hashMapCache] at h
        injection h with h1 h2
        subst h1
        intro k' v hv
        simp only [hashMapCache] at hv
        by_cases hk : k' = k
        · subst hk
          rw [alGet, if_pos rfl] at hv
          injection hv with hv2
          exact hv2.symm
        · rw [alGet, if_neg hk] at hv
          exact hs k' v hv)
      (fun k v h => by
        simp only [hashMapCache] at h
        by_cases hk : k = 3
        · subst hk
          rw [alGet, if_pos rfl] at h
          injection h with h2
          exact h2.symm
        · rw [alGet, if_neg hk, alGet] at h
          exact Option.noConfusion h)

/-- C10: comparing `Value::Float(NaN)` with itself, or hashing it, routes
through `ordered_float::NotNaN::from`, whose assertion rejects NaN — a
panic, not a total result — so equality and hashing of `Value` are NOT
total and a NaN float is not usable as a cache key; non-NaN floats compare
and hash normally. -/
theorem C10_value_nan_not_total :
    Value.rust_eq (.float .nan) (.float .nan) = none ∧
    Value.rust_hash (.float .nan) = none ∧
    Value.rust_eq (.float (.num 1)) (.float (.num 1)) = some true ∧
    Value.rust_hash (.float (.num 1)) = some (.floatH 1) := by
  decide

end TRexSpec
